import Mathlib

/-!
# Verification of dolphin `stitching.py` and `filtering.py`

A shallow embedding of the raster-mosaicking utilities in
`src/dolphin/stitching.py` and of the final masking step of
`src/dolphin/filtering.py`, with proofs of the behavioural properties the
specification states about them.

Modelling conventions:

* IEEE floating point pixel values are modelled exactly as `FVal`: either
  `FVal.nan` or a rational number.  numpy's `==` on floats (NaN unequal to
  everything, including itself) is `FVal.feq`; `np.isnan` is `FVal.isnan`.
  Rounding error is not modelled: the claims under study are about control
  flow and exact arithmetic identities, not float rounding.
* 2-D numpy arrays are modelled as flat `List`s of pixels (all the array
  operations used by the code under study are elementwise).
* Geographic coordinates and resolutions are exact rationals (`ℚ`).
* GDAL datasets are abstracted into a `RasterInfo` record holding exactly the
  fields the code reads: the raster bounds (`io.get_raster_bounds`), the
  geotransform pixel sizes `gt[1]`/`gt[5]`, and an opaque projection token
  (`ds.GetProjection()`, abstracted to `ℕ` since the code only compares and
  counts projection strings).
* Python exceptions are modelled with `Except String` (or a dedicated result
  type where a claim inspects the error payload).
-/

namespace Dolphin

/-- A raster pixel value: an IEEE float modelled exactly, as either NaN or a
rational number. -/
inductive FVal where
  | nan : FVal
  | num : ℚ → FVal
deriving DecidableEq, Repr

/-- `np.isnan` on a single value. -/
def FVal.isnan : FVal → Bool
  | FVal.nan => true
  | FVal.num _ => false

/-- numpy `==` on floats: NaN compares unequal to everything (itself
included); numbers compare by value. -/
def FVal.feq : FVal → FVal → Bool
  | FVal.num a, FVal.num b => decide (a = b)
  | _, _ => false

/-! ## `_blend_new_arr` (stitching.py lines 294-328) -/

/-- The nodata mask the loop body of `_blend_new_arr` builds for a single
nodata value (stitching.py lines 320-323): `np.isnan(new_arr)` when the
nodata value is NaN, `new_arr == nodata` otherwise. -/
def nd_mask (nodata : FVal) (new_arr : List FVal) : List Bool :=
  if nodata.isnan then new_arr.map FVal.isnan
  else new_arr.map (fun v => FVal.feq v nodata)

/-- The `good_pixels` array of `_blend_new_arr` (stitching.py lines 317-324):
start from all-True (`np.ones(cur_arr.shape, dtype=bool)`) and, for each
non-`None` entry of `nodata_vals`, clear the pixels matched by its mask
(`good_pixels = good_pixels & ~nd_mask`). -/
def good_pixels (cur_arr new_arr : List FVal) (nodata_vals : List (Option FVal)) :
    List Bool :=
  nodata_vals.foldl
    (fun gp nd =>
      match nd with
      | none => gp
      | some n => List.zipWith (fun g m => g && !m) gp (nd_mask n new_arr))
    (cur_arr.map (fun _ => true))

/-- `_blend_new_arr` (stitching.py lines 294-328): overwrite `cur_arr` with
`new_arr` at every pixel where `good_pixels` holds
(`cur_arr[good_pixels] = new_arr[good_pixels]`). -/
def blend_new_arr (cur_arr new_arr : List FVal) (nodata_vals : List (Option FVal)) :
    List FVal :=
  List.zipWith (fun c ng => if ng.2 then ng.1 else c) cur_arr
    (new_arr.zip (good_pixels cur_arr new_arr nodata_vals))

/-! ## `_align_bounds` (stitching.py lines 460-466) -/

/-- `_align_bounds` (stitching.py lines 460-466): snap `left`/`bottom` down
and `right`/`top` up to the nearest multiple of the corresponding resolution
component, via `math.floor(x / res) * res` and `math.ceil(x / res) * res`.
The bounds tuple is `(left, bottom, right, top)`; the resolution is
`(res_x, res_y)`. -/
def align_bounds (bounds : ℚ × ℚ × ℚ × ℚ) (res : ℚ × ℚ) : ℚ × ℚ × ℚ × ℚ :=
  let left := (Int.floor (bounds.1 / res.1) : ℚ) * res.1
  let right := (Int.ceil (bounds.2.2.1 / res.1) : ℚ) * res.1
  let bottom := (Int.floor (bounds.2.1 / res.2) : ℚ) * res.2
  let top := (Int.ceil (bounds.2.2.2 / res.2) : ℚ) * res.2
  (left, bottom, right, top)

/-! ## Raster metadata and the output-grid planner -/

/-- The metadata `_get_combined_bounds_gt`, `_get_resolution` and
`_get_mode_projection` read from one opened GDAL dataset: the raster bounds
`(left, bottom, right, top)` reported by `io.get_raster_bounds`, the
geotransform pixel sizes `dx = gt[1]` and `dy = gt[5]` (`dy` is negative for
north-up rasters), and the projection string, abstracted to an opaque token
since the code only compares projections for equality and counts them. -/
structure RasterInfo where
  left : ℚ
  bottom : ℚ
  right : ℚ
  top : ℚ
  dx : ℚ
  dy : ℚ
  proj : ℕ
deriving DecidableEq, Repr

/-- Python `min` over a list, `None` when the list is empty (where CPython
would raise `ValueError: min() arg is an empty sequence`). -/
def pyMin : List ℚ → Option ℚ
  | [] => none
  | x :: xs => some (xs.foldl min x)

/-- Python `max` over a list, `None` when the list is empty. -/
def pyMax : List ℚ → Option ℚ
  | [] => none
  | x :: xs => some (xs.foldl max x)

/-- `_get_combined_bounds_gt` (stitching.py lines 400-449).  The scan loop
collects every tile's `left`/`right` into `xs`, `bottom`/`top` into `ys`, the
absolute pixel sizes into the set `resolutions` and the projections into the
set `projs` (Python sets abstracted as `dedup`, only their cardinality is
used).  It fails when more than one resolution or projection remains, and on
an empty tile list the statement `res = (abs(dx), abs(dy))` raises a
`NameError` because the loop variables were never bound.  Otherwise `dx`/`dy`
hold the values of the last scanned tile, the bounds are
`(min xs, min ys, max xs, max ys)` (snapped by `_align_bounds` when
`target_aligned_pixels` is set) and the geotransform is
`[bounds[0], dx, 0, bounds[3], 0, dy]`. -/
def get_combined_bounds_gt (tiles : List RasterInfo) (target_aligned_pixels : Bool) :
    Except String ((ℚ × ℚ × ℚ × ℚ) × List ℚ) :=
  let xs := tiles.flatMap (fun u => [u.left, u.right])
  let ys := tiles.flatMap (fun u => [u.bottom, u.top])
  let resolutions := (tiles.map (fun u => (|u.dx|, |u.dy|))).dedup
  let projs := (tiles.map (fun u => u.proj)).dedup
  if 1 < resolutions.length then
    Except.error "ValueError: The input files have different resolutions"
  else if 1 < projs.length then
    Except.error "ValueError: The input files have different projections"
  else
    match tiles.getLast? with
    | none => Except.error "NameError: name dx is not defined"
    | some tlast =>
      let res := (|tlast.dx|, |tlast.dy|)
      match pyMin xs, pyMin ys, pyMax xs, pyMax ys with
      | some mnx, some mny, some mxx, some mxy =>
        let bounds :=
          if target_aligned_pixels then align_bounds (mnx, mny, mxx, mxy) res
          else (mnx, mny, mxx, mxy)
        Except.ok (bounds, [bounds.1, tlast.dx, 0, bounds.2.2.2, 0, tlast.dy])
      | _, _, _, _ => Except.error "ValueError: min() arg is an empty sequence"

/-- The union bounding box of a non-empty tile list, stated the way the
specification does: the minimum of all left edges, the minimum of all bottom
edges, the maximum of all right edges and the maximum of all top edges. -/
def union_bounds (t : RasterInfo) (ts : List RasterInfo) : ℚ × ℚ × ℚ × ℚ :=
  ((ts.map RasterInfo.left).foldl min t.left,
   (ts.map RasterInfo.bottom).foldl min t.bottom,
   (ts.map RasterInfo.right).foldl max t.right,
   (ts.map RasterInfo.top).foldl max t.top)

/-! ## `_get_resolution` (stitching.py lines 391-397) -/

/-- Result of `_get_resolution`: either the shared pixel size, the
`ValueError` raised on a resolution mismatch (carrying the list of per-file
resolutions interpolated into its message), or the `IndexError` that
`res[0]` raises on an empty input list. -/
inductive ResResult where
  | ok : ℚ × ℚ → ResResult
  | resolutionMismatch : List (ℚ × ℚ) → ResResult
  | indexError : ResResult
deriving DecidableEq, Repr

/-- `_get_resolution` (stitching.py lines 391-397): collect each file's
`(gt[1], gt[5])`, raise a `ValueError` listing them if they are not all
equal (`len(set(res)) > 1`), and return `res[0]` otherwise. -/
def get_resolution (tiles : List RasterInfo) : ResResult :=
  let res := tiles.map (fun u => (u.dx, u.dy))
  if 1 < res.dedup.length then ResResult.resolutionMismatch res
  else
    match res with
    | [] => ResResult.indexError
    | r :: _ => ResResult.ok r

/-! ## `_get_mode_projection` (stitching.py lines 385-388) -/

/-- Python `max(iterable, key=f)` given a first element and the rest of the
iteration: scan left to right, replacing the current best only when the key
strictly increases, so the first element attaining the maximal key wins. -/
def pyMaxBy (f : ℕ → ℕ) : ℕ → List ℕ → ℕ
  | best, [] => best
  | best, x :: xs => pyMaxBy f (if f best < f x then x else best) xs

/-- `_get_mode_projection` (stitching.py lines 385-388):
`max(set(projs), key=projs.count)`.  CPython iterates the set `set(projs)`
in an unspecified, hash-dependent order, so that order is made an explicit
parameter `setOrder`, constrained by `set_enumeration` below; `max` of an
empty iterable would raise, giving `none`. -/
def get_mode_projection (projs : List ℕ) (setOrder : List ℕ) : Option ℕ :=
  match setOrder with
  | [] => none
  | x :: xs => some (pyMaxBy (fun p => projs.count p) x xs)

/-- `setOrder` is a possible iteration order of `set(projs)`: it enumerates
the distinct elements of `projs`, each exactly once, in some order. -/
def set_enumeration (projs setOrder : List ℕ) : Prop :=
  setOrder.Nodup ∧ ∀ p, p ∈ setOrder ↔ p ∈ projs

/-! ## `_nodata_to_zero` (stitching.py lines 469-498) and the single-tile
path of `merge_images` (stitching.py lines 196-204) -/

/-- The pixel transformation `_nodata_to_zero` applies to the copied band
(stitching.py lines 489-496): `mask = np.logical_or(np.isnan(arr),
arr == nodata); arr[mask] = 0`.  When GDAL reports no nodata value
(`GetNoDataValue()` is `None`), numpy's `arr == None` is elementwise
`False`. -/
def nodata_to_zero_arr (arr : List FVal) (nodata : Option FVal) : List FVal :=
  let nan_mask := arr.map FVal.isnan
  let eq_mask := arr.map (fun v =>
    match nodata with
    | some n => FVal.feq v n
    | none => false)
  let mask := List.zipWith (fun a b => a || b) nan_mask eq_mask
  List.zipWith (fun v m => if m then FVal.num 0 else v) arr mask

/-- `_nodata_to_zero` (stitching.py lines 469-498).  When `outfile` is
`None`, line 482 (`out_dir: Path = in_p.parent if out_dir is None else
Path(out_dir)`) evaluates the condition `out_dir is None` while `out_dir` is
a local variable that has not been assigned yet (the annotated assignment
itself is what makes it local), so Python raises `UnboundLocalError` before
`gdal.Open`/`CreateCopy` can create any output.  When `outfile` is given,
the function copies the input raster to `outfile` and writes back the band
with NaN and nodata pixels zeroed; the result models the written output
file's name and pixels. -/
def nodata_to_zero (infile : String) (outfile : Option String)
    (arr : List FVal) (nodata : Option FVal) : Except String (String × List FVal) :=
  match outfile with
  | none =>
    Except.error "UnboundLocalError: local variable out_dir referenced before assignment"
  | some out => Except.ok (out, nodata_to_zero_arr arr nodata)

/-- The single-tile fast path of `merge_images` (stitching.py lines
196-204): with exactly one input file there is no stitching, the file is
passed to `_nodata_to_zero` with the requested `outfile`.  An input tile is
`(filename, pixels, nodata value)`.  The multi-tile path drives the GDAL
warping and windowed-IO adapters and is outside this model (`none`). -/
def merge_images (file_list : List (String × List FVal × Option FVal))
    (outfile : String) : Option (Except String (String × List FVal)) :=
  match file_list with
  | [f] => some (nodata_to_zero f.1 (some outfile) f.2.1 f.2.2)
  | _ => none

/-! ## `group_by_burst` (stitching.py lines 111-162) -/

/-- Comparison of list elements by a sort key, as used by Python's
`sorted(..., key=lambda f_d_tuple: f_d_tuple[1])`: elements compare by their
keys only. -/
def keyLE {α β : Type} [LinearOrder β] (key : α → β) (p q : α) : Prop :=
  key p ≤ key q

instance {α β : Type} [LinearOrder β] (key : α → β) : DecidableRel (keyLE key) :=
  fun p q => inferInstanceAs (Decidable (key p ≤ key q))

instance {α β : Type} [LinearOrder β] (key : α → β) : IsTrans α (keyLE key) :=
  ⟨fun _ _ _ => le_trans⟩

instance {α β : Type} [LinearOrder β] (key : α → β) : IsTotal α (keyLE key) :=
  ⟨fun a b => le_total (key a) (key b)⟩

/-- `itertools.groupby(l, key)`: collapse each maximal run of consecutive
elements sharing a key into one `(key, run)` group, preserving order. -/
def groupby {α β : Type} [DecidableEq β] (key : α → β) : List α → List (β × List α)
  | [] => []
  | x :: xs =>
    match groupby key xs with
    | [] => [(key x, [x])]
    | (k, g) :: rest =>
      if key x = k then (k, x :: g) :: rest else (key x, [x]) :: (k, g) :: rest

/-- The list comprehension `[get_burst_id(f) for f in file_list]`
(stitching.py line 144): extract each file's burst id left to right, raising
`ValueError: Could not parse burst id from <filename>` at the first filename
the burst-id pattern does not match (stitching.py lines 136-140).  The
pattern `io.OPERA_BURST_RE` lives outside the repository slice, so the
token-extraction rule is the parameter `get_burst`; burst ids are an
arbitrary linearly ordered type (Python compares the id strings
lexicographically). -/
def get_burst_list {β : Type} (get_burst : String → Option β) :
    List String → Except String (List β)
  | [] => Except.ok []
  | f :: fs =>
    match get_burst f with
    | none => Except.error ("ValueError: Could not parse burst id from " ++ f)
    | some b =>
      match get_burst_list get_burst fs with
      | Except.error e => Except.error e
      | Except.ok bs => Except.ok (b :: bs)

/-- `group_by_burst` (stitching.py lines 111-162).  `sort_by_burst_id` first
extracts every burst id (possibly raising), then stably sorts the
`(file, id)` tuples by id (`sorted` with `key=lambda f_d_tuple:
f_d_tuple[1]`, modelled by `List.insertionSort` on the key order, which is
stable) and unpacks them with `file_list, burst_ids = zip(*file_burst_tups)`
— on an empty input `zip(*[])` is `zip()` and the unpacking raises
`ValueError: not enough values to unpack`.  Finally `itertools.groupby`
groups the sorted files by re-extracting each file's burst id; since
extraction is a pure function and every pair's id component is exactly its
file's extracted id, this equals grouping the sorted pairs by their id
component and projecting the files back out. -/
def group_by_burst {β : Type} [LinearOrder β] (get_burst : String → Option β)
    (file_list : List String) : Except String (List (β × List String)) :=
  match get_burst_list get_burst file_list with
  | Except.error e => Except.error e
  | Except.ok burst_ids =>
    match file_list with
    | [] => Except.error "ValueError: not enough values to unpack (expected 2, got 0)"
    | _ :: _ =>
      let file_burst_tups :=
        List.insertionSort (keyLE Prod.snd) (file_list.zip burst_ids)
      Except.ok
        ((groupby Prod.snd file_burst_tups).map (fun kg => (kg.1, kg.2.map Prod.fst)))

/-- A concrete token-extraction rule exercising `group_by_burst`, mirroring
the specification's example: two filenames carry the burst token
`t087_185678_iw1` (id 1), one carries `t087_185678_iw2` (id 2), and any
other filename carries no token. -/
def demo_burst (f : String) : Option ℕ :=
  if f = "t087_185678_iw1_a" then some 1
  else if f = "t087_185678_iw2_b" then some 2
  else if f = "t087_185678_iw1_c" then some 1
  else none

/-! ## `filtering` (filtering.py lines 6-147), final masking step -/

/-- `mask_boundary = ~(corr == 0).astype("bool")` (filtering.py line 46):
False exactly at the zero-filled boundary pixels where `corr` is 0. -/
def mask_boundary (corr : List ℚ) : List Bool :=
  corr.map (fun c => !(decide (c = 0)))

/-- The return value of `filtering` (filtering.py line 145):
`filtered_ifg = unw_ifg - lowpass_filtered * mask_boundary`, where numpy
multiplies the float array with the boolean mask elementwise (`True` as 1,
`False` as 0).  `lowpass_filtered` — the Gaussian low-pass of the
ramp-interpolated, reflection-padded array (filtering.py lines 48-144) — is
taken as an arbitrary array parameter: the property under study holds for
every value of it, so the heavy numeric pipeline that produces it needs no
model of its own. -/
def filtered_ifg (unw_ifg lowpass_filtered corr : List ℚ) : List ℚ :=
  List.zipWith (fun u lm => u - lm.1 * (if lm.2 then (1 : ℚ) else 0)) unw_ifg
    (lowpass_filtered.zip (mask_boundary corr))

/-! ## Helper lemmas -/

lemma dedup_all_eq {α : Type} [DecidableEq α] (c : α) :
    ∀ (l : List α), l ≠ [] → (∀ x ∈ l, x = c) → l.dedup = [c]
  | [], h, _ => absurd rfl h
  | a :: l, _, hall => by
    rcases eq_or_ne l [] with rfl | hl
    · have ha : a = c := hall a (List.mem_cons_self a [])
      simp [ha]
    · have ha : a = c := hall a (List.mem_cons_self a l)
      obtain ⟨b, l2, rfl⟩ := List.exists_cons_of_ne_nil hl
      have hb : b = c := hall b (by simp)
      have hmem : a ∈ b :: l2 := by
        rw [ha, hb]
        exact List.mem_cons_self c l2
      rw [List.dedup_cons_of_mem hmem]
      exact dedup_all_eq c (b :: l2) (by simp)
        (fun x hx => hall x (List.mem_cons_of_mem a hx))

lemma dedup_length_le_one_iff {α : Type} [DecidableEq α] (l : List α) :
    l.dedup.length ≤ 1 ↔ ∀ x ∈ l, ∀ y ∈ l, x = y := by
  constructor
  · intro h x hx y hy
    have hx2 : x ∈ l.dedup := List.mem_dedup.mpr hx
    have hy2 : y ∈ l.dedup := List.mem_dedup.mpr hy
    match hd : l.dedup with
    | [] => rw [hd] at hx2; exact absurd hx2 (List.not_mem_nil x)
    | [a] =>
      rw [hd] at hx2 hy2
      simp at hx2 hy2
      rw [hx2, hy2]
    | a :: b :: l2 => rw [hd] at h; simp at h
  · intro h
    rcases eq_or_ne l [] with rfl | hl
    · simp
    · obtain ⟨a, l2, rfl⟩ := List.exists_cons_of_ne_nil hl
      rw [dedup_all_eq a _ (by simp) (fun x hx => h x hx a (List.mem_cons_self a l2))]
      simp

/-! ## C2: `_align_bounds` snaps outward to resolution multiples -/

/-- C2: for every bounding box `(left, bottom, right, top)` and positive
resolution `(res_x, res_y)`, each component of `_align_bounds`'s result is
an exact integer multiple of the matching resolution component (floor for
left/bottom, ceil for right/top), and the snapped box contains the input
box. -/
theorem align_bounds_snap (l b r t rx ry : ℚ) (hx : 0 < rx) (hy : 0 < ry) :
    (∃ k : ℤ, (align_bounds (l, b, r, t) (rx, ry)).1 = k * rx)
    ∧ (∃ k : ℤ, (align_bounds (l, b, r, t) (rx, ry)).2.1 = k * ry)
    ∧ (∃ k : ℤ, (align_bounds (l, b, r, t) (rx, ry)).2.2.1 = k * rx)
    ∧ (∃ k : ℤ, (align_bounds (l, b, r, t) (rx, ry)).2.2.2 = k * ry)
    ∧ (align_bounds (l, b, r, t) (rx, ry)).1 ≤ l
    ∧ (align_bounds (l, b, r, t) (rx, ry)).2.1 ≤ b
    ∧ r ≤ (align_bounds (l, b, r, t) (rx, ry)).2.2.1
    ∧ t ≤ (align_bounds (l, b, r, t) (rx, ry)).2.2.2 := by
  have heq : align_bounds (l, b, r, t) (rx, ry) =
      ((Int.floor (l / rx) : ℚ) * rx, (Int.floor (b / ry) : ℚ) * ry,
       (Int.ceil (r / rx) : ℚ) * rx, (Int.ceil (t / ry) : ℚ) * ry) := rfl
  rw [heq]
  refine ⟨⟨Int.floor (l / rx), rfl⟩, ⟨Int.floor (b / ry), rfl⟩,
    ⟨Int.ceil (r / rx), rfl⟩, ⟨Int.ceil (t / ry), rfl⟩, ?_, ?_, ?_, ?_⟩
  · calc (Int.floor (l / rx) : ℚ) * rx ≤ (l / rx) * rx :=
        mul_le_mul_of_nonneg_right (Int.floor_le (l / rx)) hx.le
    _ = l := div_mul_cancel₀ l hx.ne'
  · calc (Int.floor (b / ry) : ℚ) * ry ≤ (b / ry) * ry :=
        mul_le_mul_of_nonneg_right (Int.floor_le (b / ry)) hy.le
    _ = b := div_mul_cancel₀ b hy.ne'
  · calc r = (r / rx) * rx := (div_mul_cancel₀ r hx.ne').symm
    _ ≤ (Int.ceil (r / rx) : ℚ) * rx :=
        mul_le_mul_of_nonneg_right (Int.le_ceil (r / rx)) hx.le
  · calc t = (t / ry) * ry := (div_mul_cancel₀ t hy.ne').symm
    _ ≤ (Int.ceil (t / ry) : ℚ) * ry :=
        mul_le_mul_of_nonneg_right (Int.le_ceil (t / ry)) hy.le

/-- Witness for C2 at bounds `(1, 2, 7, 9)` and resolution `(2, 3)`. -/
theorem align_bounds_snap_witness :
    (0 : ℚ) < 2 ∧ (0 : ℚ) < 3
    ∧ ((∃ k : ℤ, (align_bounds (1, 2, 7, 9) ((2 : ℚ), 3)).1 = k * 2)
      ∧ (∃ k : ℤ, (align_bounds (1, 2, 7, 9) ((2 : ℚ), 3)).2.1 = k * 3)
      ∧ (∃ k : ℤ, (align_bounds (1, 2, 7, 9) ((2 : ℚ), 3)).2.2.1 = k * 2)
      ∧ (∃ k : ℤ, (align_bounds (1, 2, 7, 9) ((2 : ℚ), 3)).2.2.2 = k * 3)
      ∧ (align_bounds (1, 2, 7, 9) ((2 : ℚ), 3)).1 ≤ 1
      ∧ (align_bounds (1, 2, 7, 9) ((2 : ℚ), 3)).2.1 ≤ 2
      ∧ 7 ≤ (align_bounds (1, 2, 7, 9) ((2 : ℚ), 3)).2.2.1
      ∧ 9 ≤ (align_bounds (1, 2, 7, 9) ((2 : ℚ), 3)).2.2.2) :=
  ⟨by decide, by decide, align_bounds_snap 1 2 7 9 2 3 (by decide) (by decide)⟩

/-! ## C4: `_get_resolution` -/

/-- C4: for a non-empty tile list, `_get_resolution` returns the shared
`(gt[1], gt[5])` pixel size when all inputs agree, and raises the
resolution-mismatch `ValueError` carrying the list of per-file resolutions
(the differing values) as soon as any two inputs disagree, producing no
resolution. -/
theorem get_resolution_spec (t : RasterInfo) (ts : List RasterInfo) :
    ((∀ u ∈ t :: ts, (u.dx, u.dy) = (t.dx, t.dy)) →
        get_resolution (t :: ts) = ResResult.ok (t.dx, t.dy))
    ∧ ((∃ u ∈ t :: ts, ∃ v ∈ t :: ts, (u.dx, u.dy) ≠ (v.dx, v.dy)) →
        get_resolution (t :: ts) =
          ResResult.resolutionMismatch ((t :: ts).map (fun u => (u.dx, u.dy)))) := by
  constructor
  · intro hall
    have hle : ((t :: ts).map (fun u => (u.dx, u.dy))).dedup.length ≤ 1 := by
      rw [dedup_length_le_one_iff]
      intro x hx y hy
      simp only [List.mem_map] at hx hy
      obtain ⟨u, hu, rfl⟩ := hx
      obtain ⟨v, hv, rfl⟩ := hy
      rw [hall u hu, hall v hv]
    unfold get_resolution
    rw [if_neg (by omega)]
    simp
  · intro hne
    have hgt : 1 < ((t :: ts).map (fun u => (u.dx, u.dy))).dedup.length := by
      by_contra hcon
      rw [not_lt] at hcon
      rw [dedup_length_le_one_iff] at hcon
      obtain ⟨u, hu, v, hv, huv⟩ := hne
      exact huv (hcon _ (List.mem_map_of_mem _ hu) _ (List.mem_map_of_mem _ hv))
    unfold get_resolution
    rw [if_pos hgt]

/-- Witness for C4: an agreeing pair and a disagreeing pair of tiles. -/
theorem get_resolution_spec_witness :
    get_resolution [⟨0, 0, 10, 10, 1, -1, 5⟩, ⟨3, 3, 12, 12, 1, -1, 5⟩] =
      ResResult.ok (1, -1)
    ∧ get_resolution [⟨0, 0, 10, 10, 1, -1, 5⟩, ⟨0, 0, 10, 10, 2, -2, 5⟩] =
        ResResult.resolutionMismatch [(1, -1), (2, -2)] :=
  ⟨(get_resolution_spec ⟨0, 0, 10, 10, 1, -1, 5⟩ [⟨3, 3, 12, 12, 1, -1, 5⟩]).1
      (by decide),
   (get_resolution_spec ⟨0, 0, 10, 10, 1, -1, 5⟩ [⟨0, 0, 10, 10, 2, -2, 5⟩]).2
      ⟨⟨0, 0, 10, 10, 1, -1, 5⟩, by simp, ⟨0, 0, 10, 10, 2, -2, 5⟩, by simp,
        by decide⟩⟩

/-! ## C5: `_get_mode_projection` -/

lemma pyMaxBy_spec (f : ℕ → ℕ) :
    ∀ (xs : List ℕ) (best : ℕ),
      (pyMaxBy f best xs = best ∨ pyMaxBy f best xs ∈ xs)
      ∧ f best ≤ f (pyMaxBy f best xs)
      ∧ ∀ x ∈ xs, f x ≤ f (pyMaxBy f best xs)
  | [], best => by simp [pyMaxBy]
  | x :: xs, best => by
    obtain ⟨hmem, hbest, hall⟩ := pyMaxBy_spec f xs (if f best < f x then x else best)
    have hstep : pyMaxBy f best (x :: xs) =
        pyMaxBy f (if f best < f x then x else best) xs := rfl
    rw [hstep]
    have hb2 : f best ≤ f (if f best < f x then x else best) := by
      split
      · omega
      · exact le_refl _
    have hx2 : f x ≤ f (if f best < f x then x else best) := by
      split
      · exact le_refl _
      · omega
    refine ⟨?_, le_trans hb2 hbest, ?_⟩
    · rcases hmem with h | h
      · rw [h]
        split
        · exact Or.inr (List.mem_cons_self x xs)
        · exact Or.inl rfl
      · exact Or.inr (List.mem_cons_of_mem x h)
    · intro y hy
      rcases List.mem_cons.mp hy with rfl | hy2
      · exact le_trans hx2 hbest
      · exact hall y hy2

/-- C5 (amended): for a non-empty projection list and any iteration order of
`set(projs)`, `_get_mode_projection` returns a projection attaining the
maximal occurrence count among the inputs.  (Which projection wins a tie
depends on the set iteration order — see the counterexample — so the
input-order tie-break of the original claim is not guaranteed.) -/
theorem get_mode_projection_mode (projs setOrder : List ℕ)
    (henum : set_enumeration projs setOrder) (hne : projs ≠ []) :
    ∃ r, get_mode_projection projs setOrder = some r ∧ r ∈ projs
      ∧ ∀ p ∈ projs, projs.count p ≤ projs.count r := by
  obtain ⟨_, hmem⟩ := henum
  match setOrder with
  | [] =>
    obtain ⟨a, l2, rfl⟩ := List.exists_cons_of_ne_nil hne
    exact absurd ((hmem a).mpr (List.mem_cons_self a l2)) (List.not_mem_nil a)
  | x :: xs =>
    obtain ⟨hmemO, hbest, hall⟩ := pyMaxBy_spec (fun p => projs.count p) xs x
    refine ⟨pyMaxBy (fun p => projs.count p) x xs, rfl, ?_, ?_⟩
    · rcases hmemO with h | h
      · rw [h]
        exact (hmem x).mp (List.mem_cons_self x xs)
      · exact (hmem _).mp (List.mem_cons_of_mem x h)
    · intro p hp
      rcases List.mem_cons.mp ((hmem p).mpr hp) with rfl | h2
      · exact hbest
      · exact hall p h2

/-- Counterexample for C5: with inputs `[0, 1, 0, 1]` (projections 0 and 1
tied at two occurrences each, 0 encountered first) and the admissible set
iteration order `[1, 0]`, `max(set(projs), key=projs.count)` returns
projection 1, not the first-encountered projection 0.  The tie-break
therefore depends on the set's iteration order, refuting the
first-encountered-in-input-order tie-break of the claim. -/
theorem get_mode_projection_tie_counterexample :
    set_enumeration [0, 1, 0, 1] [1, 0]
    ∧ List.count 0 [0, 1, 0, 1] = List.count 1 [0, 1, 0, 1]
    ∧ get_mode_projection [0, 1, 0, 1] [1, 0] = some 1
    ∧ ¬ get_mode_projection [0, 1, 0, 1] [1, 0] = some 0 := by
  refine ⟨⟨by decide, fun p => ?_⟩, by decide, by decide, by decide⟩
  constructor
  · intro h
    simp only [List.mem_cons, List.not_mem_nil, or_false] at h ⊢
    tauto
  · intro h
    simp only [List.mem_cons, List.not_mem_nil, or_false] at h ⊢
    tauto

/-- Witness for C5 (amended) at `projs = [5, 5, 7]`, `setOrder = [5, 7]`. -/
theorem get_mode_projection_mode_witness :
    ∃ r, get_mode_projection [5, 5, 7] [5, 7] = some r ∧ r ∈ [5, 5, 7]
      ∧ ∀ p ∈ [5, 5, 7], List.count p [5, 5, 7] ≤ List.count r [5, 5, 7] :=
  get_mode_projection_mode [5, 5, 7] [5, 7]
    ⟨by decide, fun p => by
      constructor
      · intro h
        simp only [List.mem_cons, List.not_mem_nil, or_false] at h ⊢
        tauto
      · intro h
        simp only [List.mem_cons, List.not_mem_nil, or_false] at h ⊢
        tauto⟩
    (by decide)

/-! ## C9: zero-correlation pixels pass through `filtering` unchanged -/

/-- C9: at every pixel where `corr` is 0, the boundary mask is `False`, the
low-pass correction is multiplied by 0, and the returned array equals
`unw_ifg` at that pixel — whatever the Gaussian low-pass array is. -/
theorem filtering_zero_corr_passthrough (unw_ifg lowpass_filtered corr : List ℚ)
    (i : ℕ) (h1 : i < unw_ifg.length) (h2 : i < lowpass_filtered.length)
    (h3 : i < corr.length) (hc : corr.get ⟨i, h3⟩ = 0) :
    (filtered_ifg unw_ifg lowpass_filtered corr)[i]? =
      some (unw_ifg.get ⟨i, h1⟩) := by
  have hlen : i < (filtered_ifg unw_ifg lowpass_filtered corr).length := by
    simp [filtered_ifg, mask_boundary]
    omega
  rw [List.getElem?_eq_getElem hlen]
  simp only [filtered_ifg, mask_boundary, List.getElem_zipWith, List.getElem_zip,
    List.getElem_map, List.get_eq_getElem]
  rw [show corr[i] = corr.get ⟨i, h3⟩ from rfl, hc]
  simp

/-- Witness for C9: `corr` is 0 at index 1, so the output keeps `unw_ifg`
there regardless of the low-pass value. -/
theorem filtering_zero_corr_passthrough_witness :
    (filtered_ifg [4, 7] [100, 200] [1, 0])[1]? = some 7 := by
  have h := filtering_zero_corr_passthrough [4, 7] [100, 200] [1, 0] 1
    (by decide) (by decide) (by decide) (by decide)
  simpa using h

/-! ## C10: `_nodata_to_zero` with `outfile=None` -/

/-- C10: calling `_nodata_to_zero` without an explicit `outfile` raises
`UnboundLocalError` (line 482 reads the local `out_dir` before it is ever
assigned) before any output raster is created; an output is produced exactly
when the caller supplies `outfile`. -/
theorem nodata_to_zero_requires_outfile (infile : String) (arr : List FVal)
    (nodata : Option FVal) :
    nodata_to_zero infile none arr nodata =
      Except.error "UnboundLocalError: local variable out_dir referenced before assignment"
    ∧ ∀ out : String, nodata_to_zero infile (some out) arr nodata =
        Except.ok (out, nodata_to_zero_arr arr nodata) :=
  ⟨rfl, fun _ => rfl⟩

/-! ## C1: `_blend_new_arr` pixel semantics -/

lemma nd_mask_length (n : FVal) (a : List FVal) : (nd_mask n a).length = a.length := by
  unfold nd_mask
  split <;> simp

lemma nd_mask_getElem (n : FVal) (a : List FVal) (i : ℕ) (h : i < a.length)
    (h2 : i < (nd_mask n a).length) :
    (nd_mask n a)[i] = decide (a[i] = n) := by
  cases n with
  | nan =>
    simp only [nd_mask, FVal.isnan, if_pos, List.getElem_map]
    cases a[i] <;> simp [FVal.isnan]
  | num q =>
    simp only [nd_mask, FVal.isnan, if_neg, Bool.false_eq_true, not_false_iff,
      List.getElem_map]
    cases a[i] <;> simp [FVal.feq]

lemma good_pixels_foldl (new_arr : List FVal) (i : ℕ) (hn : i < new_arr.length) :
    ∀ (vals : List (Option FVal)) (gp : List Bool), gp.length = new_arr.length →
      (vals.foldl
        (fun gp nd =>
          match nd with
          | none => gp
          | some n => List.zipWith (fun g m => g && !m) gp (nd_mask n new_arr)) gp)[i]? =
      gp[i]?.map
        (fun g => g && vals.all
          (fun nd =>
            match nd with
            | none => true
            | some n => !(decide (new_arr[i] = n))))
  | [], gp, hgp => by
    cases hg : gp[i]? <;> simp [hg]
  | none :: vals, gp, hgp => by
    rw [List.foldl_cons, good_pixels_foldl new_arr i hn vals gp hgp]
    cases hg : gp[i]? <;> simp [hg]
  | some n :: vals, gp, hgp => by
    rw [List.foldl_cons]
    have hlen2 : (List.zipWith (fun g m => g && !m) gp (nd_mask n new_arr)).length =
        new_arr.length := by
      simp [nd_mask_length, hgp]
    rw [good_pixels_foldl new_arr i hn vals _ hlen2]
    have hgpi : i < gp.length := by omega
    have hzi : i < (List.zipWith (fun g m => g && !m) gp (nd_mask n new_arr)).length := by
      omega
    rw [List.getElem?_eq_getElem hzi, List.getElem?_eq_getElem hgpi,
      List.getElem_zipWith]
    have hmi : i < (nd_mask n new_arr).length := by rw [nd_mask_length]; exact hn
    rw [nd_mask_getElem n new_arr i hn hmi]
    simp [Bool.and_assoc]

lemma good_pixels_length_aux (new_arr : List FVal) :
    ∀ (vals : List (Option FVal)) (gp : List Bool), gp.length = new_arr.length →
      (vals.foldl
        (fun gp nd =>
          match nd with
          | none => gp
          | some n => List.zipWith (fun g m => g && !m) gp (nd_mask n new_arr)) gp).length =
      new_arr.length
  | [], gp, hgp => hgp
  | none :: vals, gp, hgp => by
    rw [List.foldl_cons]
    exact good_pixels_length_aux new_arr vals gp hgp
  | some n :: vals, gp, hgp => by
    rw [List.foldl_cons]
    exact good_pixels_length_aux new_arr vals _ (by simp [nd_mask_length, hgp])

lemma good_pixels_length (cur_arr new_arr : List FVal) (vals : List (Option FVal))
    (hlen : cur_arr.length = new_arr.length) :
    (good_pixels cur_arr new_arr vals).length = new_arr.length := by
  unfold good_pixels
  exact good_pixels_length_aux new_arr vals _ (by simp [hlen])

/-- C1: with the nodata list `[in_nodata, out_nodata, np.nan]` that
`merge_images` passes (stitching.py line 280), `_blend_new_arr` keeps, at
every pixel, the new tile's value when it is none of input-nodata,
output-nodata or NaN, and otherwise keeps the current output's value.
`List.filterMap id [ind, ond, some FVal.nan]` is exactly the set of present
nodata values. -/
theorem blend_new_arr_pixel (cur_arr new_arr : List FVal) (ind ond : Option FVal)
    (i : ℕ) (hlen : cur_arr.length = new_arr.length) (hi : i < cur_arr.length)
    (hi2 : i < new_arr.length) :
    (blend_new_arr cur_arr new_arr [ind, ond, some FVal.nan])[i]? =
      if new_arr.get ⟨i, hi2⟩ ∈ List.filterMap id [ind, ond, some FVal.nan]
      then cur_arr[i]? else new_arr[i]? := by
  have hgplen : (good_pixels cur_arr new_arr [ind, ond, some FVal.nan]).length =
      new_arr.length := good_pixels_length cur_arr new_arr _ hlen
  have hgpq : (good_pixels cur_arr new_arr [ind, ond, some FVal.nan])[i]? =
      (cur_arr.map (fun _ => true))[i]?.map
        (fun g => g && [ind, ond, some FVal.nan].all
          (fun nd =>
            match nd with
            | none => true
            | some n => !(decide (new_arr[i] = n)))) :=
    good_pixels_foldl new_arr i hi2 [ind, ond, some FVal.nan] _ (by simp [hlen])
  have hmi : i < (cur_arr.map (fun _ : FVal => true)).length := by simpa using hi
  have hgpi : i < (good_pixels cur_arr new_arr [ind, ond, some FVal.nan]).length := by
    omega
  rw [List.getElem?_eq_getElem hmi, List.getElem_map,
    List.getElem?_eq_getElem hgpi] at hgpq
  have hgpval : (good_pixels cur_arr new_arr [ind, ond, some FVal.nan])[i] =
      [ind, ond, some FVal.nan].all
        (fun nd =>
          match nd with
          | none => true
          | some n => !(decide (new_arr[i] = n))) := by
    have := Option.some.inj hgpq
    simpa using this
  have hblen : i < (blend_new_arr cur_arr new_arr [ind, ond, some FVal.nan]).length := by
    simp only [blend_new_arr, List.length_zipWith, List.length_zip, hgplen]
    omega
  rw [List.getElem?_eq_getElem hblen, List.getElem?_eq_getElem hi,
    List.getElem?_eq_getElem hi2]
  have hstep : (blend_new_arr cur_arr new_arr [ind, ond, some FVal.nan])[i] =
      if (good_pixels cur_arr new_arr [ind, ond, some FVal.nan])[i]
      then new_arr[i] else cur_arr[i] := by
    simp only [blend_new_arr, List.getElem_zipWith, List.getElem_zip]
  rw [hstep, hgpval, List.get_eq_getElem]
  rcases ind with _ | n1 <;> rcases ond with _ | n2 <;>
    simp only [List.all_cons, List.all_nil, List.filterMap_cons_none,
      List.filterMap_cons_some, List.filterMap_nil, List.mem_cons,
      List.not_mem_nil, or_false, Bool.and_true, Bool.true_and, id_eq]
  · by_cases hnan : new_arr[i] = FVal.nan <;> simp [hnan]
  · by_cases hnan : new_arr[i] = FVal.nan <;> by_cases hb : new_arr[i] = n2 <;>
      simp [hnan, hb]
  · by_cases hnan : new_arr[i] = FVal.nan <;> by_cases ha : new_arr[i] = n1 <;>
      simp [hnan, ha]
  · by_cases hnan : new_arr[i] = FVal.nan <;> by_cases ha : new_arr[i] = n1 <;>
      by_cases hb : new_arr[i] = n2 <;> simp [hnan, ha, hb]

/-- Witness for C1: input nodata 0, output nodata 0; the new tile's values
`[7, 0, NaN]` overwrite the current `[5, 5, 5]` exactly at the one pixel
holding valid data. -/
theorem blend_new_arr_pixel_witness :
    (blend_new_arr [FVal.num 5, FVal.num 5, FVal.num 5]
        [FVal.num 7, FVal.num 0, FVal.nan]
        [some (FVal.num 0), some (FVal.num 0), some FVal.nan])[0]? =
      some (FVal.num 7) := by
  have h := blend_new_arr_pixel [FVal.num 5, FVal.num 5, FVal.num 5]
    [FVal.num 7, FVal.num 0, FVal.nan] (some (FVal.num 0)) (some (FVal.num 0)) 0
    (by decide) (by decide) (by decide)
  rw [h]
  decide

/-! ## C6: single-tile `merge_images` -/

/-- C6: merging a single tile copies it to `outfile` pixel for pixel, except
that every pixel that was NaN or equal to the tile's nodata value becomes 0;
all other pixels are unchanged. -/
theorem merge_images_single_tile (name outfile : String) (arr : List FVal)
    (nodata : Option FVal) (i : ℕ) (hi : i < arr.length) :
    ∃ res, merge_images [(name, arr, nodata)] outfile = some (Except.ok (outfile, res))
      ∧ res.length = arr.length
      ∧ res[i]? =
          some (if (arr.get ⟨i, hi⟩).isnan = true ∨ nodata = some (arr.get ⟨i, hi⟩)
            then FVal.num 0 else arr.get ⟨i, hi⟩) := by
  refine ⟨nodata_to_zero_arr arr nodata, rfl, by simp [nodata_to_zero_arr], ?_⟩
  have hlen : i < (nodata_to_zero_arr arr nodata).length := by
    simp [nodata_to_zero_arr]
    omega
  rw [List.getElem?_eq_getElem hlen]
  simp only [nodata_to_zero_arr, List.getElem_zipWith, List.getElem_map,
    List.get_eq_getElem]
  rcases nodata with _ | n
  · cases arr[i] <;> simp [FVal.isnan]
  · cases harr : arr[i] with
    | nan => cases n <;> simp [FVal.isnan, FVal.feq]
    | num q =>
      cases n with
      | nan => simp [FVal.isnan, FVal.feq]
      | num p =>
        by_cases hpq : q = p <;> simp [FVal.isnan, FVal.feq, hpq]
        rw [if_neg (fun h => hpq h.symm)]

/-- Witness for C6: tile `[NaN, 0, 3]` with nodata 0; the NaN pixel becomes
0 in the output. -/
theorem merge_images_single_tile_witness :
    ∃ res, merge_images [("tile", [FVal.nan, FVal.num 0, FVal.num 3], some (FVal.num 0))]
        "out" = some (Except.ok ("out", res))
      ∧ res.length = 3
      ∧ res[0]? = some (FVal.num 0) := by
  obtain ⟨res, h1, h2, h3⟩ := merge_images_single_tile "tile" "out"
    [FVal.nan, FVal.num 0, FVal.num 3] (some (FVal.num 0)) 0 (by decide)
  refine ⟨res, h1, h2, ?_⟩
  rw [h3]
  decide

/-! ## C3 and C7: `_get_combined_bounds_gt` -/

lemma foldl_min_le : ∀ (xs : List ℚ) (x : ℚ), ∀ y ∈ x :: xs, List.foldl min x xs ≤ y
  | [], x => by
    intro y hy
    simp at hy
    simp [hy]
  | a :: as, x => by
    intro y hy
    rw [List.foldl_cons]
    rcases List.mem_cons.mp hy with rfl | hy2
    · exact le_trans (foldl_min_le as (min y a) (min y a) (List.mem_cons_self _ _))
        (min_le_left y a)
    · rcases List.mem_cons.mp hy2 with rfl | hy3
      · exact le_trans (foldl_min_le as (min x y) (min x y) (List.mem_cons_self _ _))
          (min_le_right x y)
      · exact foldl_min_le as (min x a) y (List.mem_cons_of_mem _ hy3)

lemma foldl_min_mem : ∀ (xs : List ℚ) (x : ℚ), List.foldl min x xs ∈ x :: xs
  | [], x => by simp
  | a :: as, x => by
    rw [List.foldl_cons]
    rcases List.mem_cons.mp (foldl_min_mem as (min x a)) with h2 | h2
    · rw [h2]
      rcases min_choice x a with h3 | h3 <;> rw [h3]
      · exact List.mem_cons_self _ _
      · exact List.mem_cons_of_mem _ (List.mem_cons_self _ _)
    · exact List.mem_cons_of_mem _ (List.mem_cons_of_mem _ h2)

lemma le_foldl_max : ∀ (xs : List ℚ) (x : ℚ), ∀ y ∈ x :: xs, y ≤ List.foldl max x xs
  | [], x => by
    intro y hy
    simp at hy
    simp [hy]
  | a :: as, x => by
    intro y hy
    rw [List.foldl_cons]
    rcases List.mem_cons.mp hy with rfl | hy2
    · exact le_trans (le_max_left y a)
        (le_foldl_max as (max y a) (max y a) (List.mem_cons_self _ _))
    · rcases List.mem_cons.mp hy2 with rfl | hy3
      · exact le_trans (le_max_right x y)
          (le_foldl_max as (max x y) (max x y) (List.mem_cons_self _ _))
      · exact le_foldl_max as (max x a) y (List.mem_cons_of_mem _ hy3)

lemma foldl_max_mem : ∀ (xs : List ℚ) (x : ℚ), List.foldl max x xs ∈ x :: xs
  | [], x => by simp
  | a :: as, x => by
    rw [List.foldl_cons]
    rcases List.mem_cons.mp (foldl_max_mem as (max x a)) with h2 | h2
    · rw [h2]
      rcases max_choice x a with h3 | h3 <;> rw [h3]
      · exact List.mem_cons_self _ _
      · exact List.mem_cons_of_mem _ (List.mem_cons_self _ _)
    · exact List.mem_cons_of_mem _ (List.mem_cons_of_mem _ h2)

/-- `min` over the interleaved edge list `[f t, g t, f u₁, g u₁, ...]` equals
`min` over the `f`-edges alone, provided `f u ≤ g u` on every tile. -/
lemma pyMin_pairs (t : RasterInfo) (ts : List RasterInfo) (f g : RasterInfo → ℚ)
    (h : ∀ u ∈ t :: ts, f u ≤ g u) :
    pyMin ((t :: ts).flatMap (fun u => [f u, g u])) =
      some ((ts.map f).foldl min (f t)) := by
  have hflat : (t :: ts).flatMap (fun u => [f u, g u]) =
      f t :: g t :: ts.flatMap (fun u => [f u, g u]) := rfl
  have hpy : pyMin (f t :: g t :: ts.flatMap (fun u => [f u, g u])) =
      some ((g t :: ts.flatMap (fun u => [f u, g u])).foldl min (f t)) := rfl
  rw [hflat, hpy]
  refine congrArg some (le_antisymm ?_ ?_)
  · -- min over all edges is at most the min over the f-edges
    have hmem := foldl_min_mem (ts.map f) (f t)
    apply foldl_min_le
    rcases List.mem_cons.mp hmem with h2 | h2
    · rw [h2]
      exact List.mem_cons_self _ _
    · obtain ⟨u, hu, hufe⟩ := List.mem_map.mp h2
      rw [← hufe]
      refine List.mem_cons_of_mem _ (List.mem_cons_of_mem _ ?_)
      exact List.mem_flatMap.mpr ⟨u, hu, by simp⟩
  · -- min over the f-edges is at most the min over all edges
    have hmem := foldl_min_mem (g t :: ts.flatMap (fun u => [f u, g u])) (f t)
    rcases List.mem_cons.mp hmem with h2 | h2
    · rw [h2]
      exact foldl_min_le (ts.map f) (f t) (f t) (List.mem_cons_self _ _)
    · rcases List.mem_cons.mp h2 with h3 | h3
      · rw [h3]
        exact le_trans (foldl_min_le (ts.map f) (f t) (f t) (List.mem_cons_self _ _))
          (h t (List.mem_cons_self _ _))
      · obtain ⟨u, hu, h4⟩ := List.mem_flatMap.mp h3
        have hfu : (ts.map f).foldl min (f t) ≤ f u :=
          foldl_min_le (ts.map f) (f t) (f u)
            (List.mem_cons_of_mem _ (List.mem_map_of_mem f hu))
        rcases List.mem_cons.mp h4 with h5 | h5
        · rw [h5]
          exact hfu
        · rw [List.mem_singleton] at h5
          rw [h5]
          exact le_trans hfu (h u (List.mem_cons_of_mem _ hu))

/-- `max` over the interleaved edge list equals `max` over the `g`-edges
alone, provided `f u ≤ g u` on every tile. -/
lemma pyMax_pairs (t : RasterInfo) (ts : List RasterInfo) (f g : RasterInfo → ℚ)
    (h : ∀ u ∈ t :: ts, f u ≤ g u) :
    pyMax ((t :: ts).flatMap (fun u => [f u, g u])) =
      some ((ts.map g).foldl max (g t)) := by
  have hflat : (t :: ts).flatMap (fun u => [f u, g u]) =
      f t :: g t :: ts.flatMap (fun u => [f u, g u]) := rfl
  have hpy : pyMax (f t :: g t :: ts.flatMap (fun u => [f u, g u])) =
      some ((g t :: ts.flatMap (fun u => [f u, g u])).foldl max (f t)) := rfl
  rw [hflat, hpy]
  refine congrArg some (le_antisymm ?_ ?_)
  · have hmem := foldl_max_mem (g t :: ts.flatMap (fun u => [f u, g u])) (f t)
    rcases List.mem_cons.mp hmem with h2 | h2
    · rw [h2]
      exact le_trans (h t (List.mem_cons_self _ _))
        (le_foldl_max (ts.map g) (g t) (g t) (List.mem_cons_self _ _))
    · rcases List.mem_cons.mp h2 with h3 | h3
      · rw [h3]
        exact le_foldl_max (ts.map g) (g t) (g t) (List.mem_cons_self _ _)
      · obtain ⟨u, hu, h4⟩ := List.mem_flatMap.mp h3
        have hgu : g u ≤ (ts.map g).foldl max (g t) :=
          le_foldl_max (ts.map g) (g t) (g u)
            (List.mem_cons_of_mem _ (List.mem_map_of_mem g hu))
        rcases List.mem_cons.mp h4 with h5 | h5
        · rw [h5]
          exact le_trans (h u (List.mem_cons_of_mem _ hu)) hgu
        · rw [List.mem_singleton] at h5
          rw [h5]
          exact hgu
  · have hmem := foldl_max_mem (ts.map g) (g t)
    apply le_foldl_max
    rcases List.mem_cons.mp hmem with h2 | h2
    · rw [h2]
      exact List.mem_cons_of_mem _ (List.mem_cons_self _ _)
    · obtain ⟨u, hu, hufe⟩ := List.mem_map.mp h2
      rw [← hufe]
      refine List.mem_cons_of_mem _ (List.mem_cons_of_mem _ ?_)
      exact List.mem_flatMap.mpr ⟨u, hu, by simp⟩

lemma getLast?_mem {α : Type} {l : List α} {x : α} (h : l.getLast? = some x) :
    x ∈ l := by
  have hx : x ∈ l.getLast? := by
    rw [h]
    rfl
  obtain ⟨hne, rfl⟩ := List.mem_getLast?_eq_getLast hx
  exact List.getLast_mem hne

/-- C3: for a non-empty tile set sharing one projection and one absolute
resolution, with well-formed bounds (`left ≤ right`, `bottom ≤ top`),
`_get_combined_bounds_gt` succeeds and returns exactly the union of the
input bounding boxes when `target_aligned_pixels` is false, and the
`_align_bounds` resolution-snapped superset of that union when it is
true. -/
theorem get_combined_bounds_union (t : RasterInfo) (ts : List RasterInfo)
    (hwf : ∀ u ∈ t :: ts, u.left ≤ u.right ∧ u.bottom ≤ u.top)
    (hres : ∀ u ∈ t :: ts, (|u.dx|, |u.dy|) = (|t.dx|, |t.dy|))
    (hproj : ∀ u ∈ t :: ts, u.proj = t.proj) :
    (∃ g, get_combined_bounds_gt (t :: ts) false =
        Except.ok (union_bounds t ts, g))
    ∧ (∃ g, get_combined_bounds_gt (t :: ts) true =
        Except.ok (align_bounds (union_bounds t ts) (|t.dx|, |t.dy|), g)) := by
  have hresl : ((t :: ts).map (fun u => (|u.dx|, |u.dy|))).dedup =
      [(|t.dx|, |t.dy|)] :=
    dedup_all_eq _ _ (by simp) (by
      intro x hx
      obtain ⟨u, hu, rfl⟩ := List.mem_map.mp hx
      exact hres u hu)
  have hprojl : ((t :: ts).map (fun u => u.proj)).dedup = [t.proj] :=
    dedup_all_eq _ _ (by simp) (by
      intro x hx
      obtain ⟨u, hu, rfl⟩ := List.mem_map.mp hx
      exact hproj u hu)
  obtain ⟨tl, htl⟩ : ∃ tl, (t :: ts).getLast? = some tl :=
    ⟨(t :: ts).getLast (by simp), List.getLast?_eq_getLast _ _⟩
  have hrestl : (|tl.dx|, |tl.dy|) = (|t.dx|, |t.dy|) := hres tl (getLast?_mem htl)
  have hminx := pyMin_pairs t ts RasterInfo.left RasterInfo.right
    (fun u hu => (hwf u hu).1)
  have hminy := pyMin_pairs t ts RasterInfo.bottom RasterInfo.top
    (fun u hu => (hwf u hu).2)
  have hmaxx := pyMax_pairs t ts RasterInfo.left RasterInfo.right
    (fun u hu => (hwf u hu).1)
  have hmaxy := pyMax_pairs t ts RasterInfo.bottom RasterInfo.top
    (fun u hu => (hwf u hu).2)
  constructor
  · refine ⟨[(union_bounds t ts).1, tl.dx, 0, (union_bounds t ts).2.2.2, 0, tl.dy], ?_⟩
    simp only [get_combined_bounds_gt, hresl, hprojl, htl, hminx, hminy, hmaxx,
      hmaxy, List.length_singleton, lt_self_iff_false, if_false, Bool.false_eq_true,
      union_bounds]
  · refine ⟨[(align_bounds (union_bounds t ts) (|t.dx|, |t.dy|)).1, tl.dx, 0,
      (align_bounds (union_bounds t ts) (|t.dx|, |t.dy|)).2.2.2, 0, tl.dy], ?_⟩
    simp only [get_combined_bounds_gt, hresl, hprojl, htl, hminx, hminy, hmaxx,
      hmaxy, List.length_singleton, lt_self_iff_false, if_false, if_true,
      union_bounds, hrestl]

/-- Witness for C3: two overlapping tiles at resolution `(1, 1)`. -/
theorem get_combined_bounds_union_witness :
    (∃ g, get_combined_bounds_gt
        [⟨0, 0, 2, 3, 1, -1, 5⟩, ⟨1, -1, 4, 2, 1, -1, 5⟩] false =
      Except.ok (union_bounds ⟨0, 0, 2, 3, 1, -1, 5⟩ [⟨1, -1, 4, 2, 1, -1, 5⟩], g))
    ∧ (∃ g, get_combined_bounds_gt
        [⟨0, 0, 2, 3, 1, -1, 5⟩, ⟨1, -1, 4, 2, 1, -1, 5⟩] true =
      Except.ok (align_bounds
        (union_bounds ⟨0, 0, 2, 3, 1, -1, 5⟩ [⟨1, -1, 4, 2, 1, -1, 5⟩])
        (|(1 : ℚ)|, |(-1 : ℚ)|), g)) :=
  get_combined_bounds_union ⟨0, 0, 2, 3, 1, -1, 5⟩ [⟨1, -1, 4, 2, 1, -1, 5⟩]
    (by decide) (by decide) (by decide)

/-- C7: whenever `_get_combined_bounds_gt` succeeds on north-up tiles
(`gt[1] > 0`, `gt[5] < 0`) sharing the positive resolution `(rx, ry)`, the
returned geotransform is `[min_x, rx, 0, max_y, 0, -ry]`: origin at the
top-left corner of the combined bounds, pixel sizes `(rx, -ry)`, both
rotation terms zero, and the resolution positive. -/
theorem get_combined_bounds_geotransform (tiles : List RasterInfo) (tap : Bool)
    (b : ℚ × ℚ × ℚ × ℚ) (g : List ℚ) (rx ry : ℚ)
    (hres : ∀ u ∈ tiles, (|u.dx|, |u.dy|) = (rx, ry))
    (hnorth : ∀ u ∈ tiles, 0 < u.dx ∧ u.dy < 0)
    (h : get_combined_bounds_gt tiles tap = Except.ok (b, g)) :
    g = [b.1, rx, 0, b.2.2.2, 0, -ry] ∧ 0 < rx ∧ 0 < ry := by
  rcases tiles with _ | ⟨t0, ts0⟩
  · simp [get_combined_bounds_gt] at h
  · obtain ⟨tl, htl⟩ : ∃ tl, (t0 :: ts0).getLast? = some tl :=
      ⟨(t0 :: ts0).getLast (by simp), List.getLast?_eq_getLast _ _⟩
    have htlm : tl ∈ t0 :: ts0 := getLast?_mem htl
    have hdx : 0 < tl.dx := (hnorth tl htlm).1
    have hdy : tl.dy < 0 := (hnorth tl htlm).2
    have hrx : rx = tl.dx := by
      have h2 := hres tl htlm
      rw [Prod.mk.injEq] at h2
      rw [← h2.1, abs_of_pos hdx]
    have hry : ry = -tl.dy := by
      have h2 := hres tl htlm
      rw [Prod.mk.injEq] at h2
      rw [← h2.2, abs_of_neg hdy]
    simp only [get_combined_bounds_gt, htl, List.flatMap_cons, List.cons_append,
      List.nil_append, pyMin, pyMax] at h
    by_cases hA : 1 < ((t0 :: ts0).map (fun u => (|u.dx|, |u.dy|))).dedup.length
    · rw [if_pos hA] at h
      exact absurd h (by simp)
    rw [if_neg hA] at h
    by_cases hB : 1 < ((t0 :: ts0).map (fun u => u.proj)).dedup.length
    · rw [if_pos hB] at h
      exact absurd h (by simp)
    rw [if_neg hB] at h
    have hinj := Except.ok.inj h
    rw [Prod.mk.injEq] at hinj
    refine ⟨?_, by rw [hrx]; exact hdx, by rw [hry]; exact neg_pos.mpr hdy⟩
    rw [← hinj.2, ← hinj.1, hrx, hry, neg_neg]

/-- Witness for C7: one north-up tile, geotransform `[0, 1, 0, 3, 0, -1]`. -/
theorem get_combined_bounds_geotransform_witness :
    ([(0 : ℚ), 1, 0, 3, 0, -1] : List ℚ) =
      [((0 : ℚ), (0 : ℚ), (2 : ℚ), (3 : ℚ)).1, 1, 0,
       ((0 : ℚ), (0 : ℚ), (2 : ℚ), (3 : ℚ)).2.2.2, 0, -1]
    ∧ (0 : ℚ) < 1 ∧ (0 : ℚ) < 1 := by
  have h := get_combined_bounds_geotransform [⟨0, 0, 2, 3, 1, -1, 5⟩] false
    (0, 0, 2, 3) [0, 1, 0, 3, 0, -1] 1 1 (by decide) (by decide) rfl
  exact h

/-! ## C8: `group_by_burst` -/

lemma get_burst_list_spec {β : Type} (g : String → Option β) :
    ∀ fs : List String, (∀ f ∈ fs, (g f).isSome) →
      ∃ bs, get_burst_list g fs = Except.ok bs
        ∧ bs.length = fs.length
        ∧ (∀ p ∈ fs.zip bs, g p.1 = some p.2)
        ∧ fs.map g = bs.map some
  | [] => fun _ => ⟨[], rfl, rfl, by simp, rfl⟩
  | f :: fs => fun hall => by
    obtain ⟨b, hb⟩ := Option.isSome_iff_exists.mp (hall f (List.mem_cons_self f fs))
    obtain ⟨bs, hbs, hlen, hpt, hmap⟩ :=
      get_burst_list_spec g fs (fun f2 hf2 => hall f2 (List.mem_cons_of_mem f hf2))
    refine ⟨b :: bs, ?_, by simp [hlen], ?_, by simp [hb, hmap]⟩
    · unfold get_burst_list
      rw [hb, hbs]
    · intro p hp
      rw [List.zip_cons_cons] at hp
      rcases List.mem_cons.mp hp with rfl | hp2
      · exact hb
      · exact hpt p hp2

lemma get_burst_list_err {β : Type} (g : String → Option β) :
    ∀ fs : List String, (∃ f ∈ fs, g f = none) →
      ∃ f2 ∈ fs, g f2 = none ∧ get_burst_list g fs =
        Except.error ("ValueError: Could not parse burst id from " ++ f2)
  | [] => by simp
  | f :: fs => fun hex => by
    cases hgf : g f with
    | none =>
      refine ⟨f, List.mem_cons_self f fs, hgf, ?_⟩
      unfold get_burst_list
      rw [hgf]
    | some b =>
      have hex2 : ∃ f2 ∈ fs, g f2 = none := by
        obtain ⟨f2, hf2, hnone⟩ := hex
        rcases List.mem_cons.mp hf2 with rfl | hf3
        · rw [hgf] at hnone
          exact absurd hnone (by simp)
        · exact ⟨f2, hf3, hnone⟩
      obtain ⟨f2, hf2, hnone, herr⟩ := get_burst_list_err g fs hex2
      refine ⟨f2, List.mem_cons_of_mem f hf2, hnone, ?_⟩
      unfold get_burst_list
      rw [hgf, herr]

lemma filter_orderedInsert_ne {α β : Type} [LinearOrder β] (key : α → β) (k : β)
    (x : α) (hx : key x ≠ k) :
    ∀ l : List α,
      (List.orderedInsert (keyLE key) x l).filter (fun y => decide (key y = k)) =
        l.filter (fun y => decide (key y = k))
  | [] => by simp [List.orderedInsert, hx]
  | b :: l => by
    by_cases hr : keyLE key x b
    · simp only [List.orderedInsert, if_pos hr, List.filter_cons]
      simp [hx]
    · simp only [List.orderedInsert, if_neg hr, List.filter_cons]
      rw [filter_orderedInsert_ne key k x hx l]

lemma filter_orderedInsert_eq {α β : Type} [LinearOrder β] (key : α → β) (k : β)
    (x : α) (hx : key x = k) :
    ∀ l : List α, List.Sorted (keyLE key) l →
      (List.orderedInsert (keyLE key) x l).filter (fun y => decide (key y = k)) =
        x :: l.filter (fun y => decide (key y = k))
  | [], _ => by simp [List.orderedInsert, hx]
  | b :: l, hs => by
    by_cases hr : keyLE key x b
    · simp only [List.orderedInsert, if_pos hr, List.filter_cons]
      simp [hx]
    · have hbk : key b ≠ k := by
        intro hbk
        exact hr (le_of_eq (hx.trans hbk.symm))
      simp only [List.orderedInsert, if_neg hr, List.filter_cons]
      rw [filter_orderedInsert_eq key k x hx l hs.of_cons]
      simp [hbk]

lemma filter_insertionSort {α β : Type} [LinearOrder β] (key : α → β) (k : β) :
    ∀ l : List α,
      (List.insertionSort (keyLE key) l).filter (fun y => decide (key y = k)) =
        l.filter (fun y => decide (key y = k))
  | [] => rfl
  | x :: l => by
    show (List.orderedInsert (keyLE key) x
      (List.insertionSort (keyLE key) l)).filter _ = _
    by_cases hx : key x = k
    · rw [filter_orderedInsert_eq key k x hx _ (List.sorted_insertionSort _ _),
        filter_insertionSort key k l]
      simp [List.filter_cons, hx]
    · rw [filter_orderedInsert_ne key k x hx, filter_insertionSort key k l]
      simp [List.filter_cons, hx]

lemma groupby_ne_nil {α β : Type} [DecidableEq β] (key : α → β) (x : α)
    (xs : List α) : groupby key (x :: xs) ≠ [] := by
  intro hcon
  cases hgb : groupby key xs with
  | nil =>
    have hred : groupby key (x :: xs) = [(key x, [x])] := by
      unfold groupby
      rw [hgb]
    rw [hred] at hcon
    simp at hcon
  | cons p rest =>
    obtain ⟨k, g⟩ := p
    have hred : groupby key (x :: xs) =
        if key x = k then (k, x :: g) :: rest
        else (key x, [x]) :: (k, g) :: rest := by
      unfold groupby
      rw [hgb]
    rw [hred] at hcon
    by_cases hxk : key x = k
    · rw [if_pos hxk] at hcon
      simp at hcon
    · rw [if_neg hxk] at hcon
      simp at hcon

lemma groupby_head_key {α β : Type} [DecidableEq β] (key : α → β) (z : α)
    (xs2 : List α) (k : β) (g : List α) (rest : List (β × List α))
    (h : groupby key (z :: xs2) = (k, g) :: rest) : k = key z := by
  cases hgb : groupby key xs2 with
  | nil =>
    have hred : groupby key (z :: xs2) = [(key z, [z])] := by
      unfold groupby
      rw [hgb]
    rw [hred, List.cons.injEq, Prod.mk.injEq] at h
    exact h.1.1.symm
  | cons p r =>
    obtain ⟨k1, g1⟩ := p
    have hred : groupby key (z :: xs2) =
        if key z = k1 then (k1, z :: g1) :: r
        else (key z, [z]) :: (k1, g1) :: r := by
      unfold groupby
      rw [hgb]
    rw [hred] at h
    by_cases hzk : key z = k1
    · rw [if_pos hzk, List.cons.injEq, Prod.mk.injEq] at h
      rw [← h.1.1, ← hzk]
    · rw [if_neg hzk, List.cons.injEq, Prod.mk.injEq] at h
      exact h.1.1.symm

/-- On a list sorted by `key`, `itertools.groupby` produces one group per
distinct key, whose member list is exactly the list filtered to that key. -/
lemma groupby_sorted {α β : Type} [LinearOrder β] (key : α → β) :
    ∀ l : List α, List.Sorted (fun p q => key p ≤ key q) l →
      ((groupby key l).map Prod.fst).Nodup
      ∧ (∀ k, k ∈ (groupby key l).map Prod.fst ↔ k ∈ l.map key)
      ∧ (∀ k gr, (k, gr) ∈ groupby key l →
          gr = l.filter (fun y => decide (key y = k)))
  | [], _ => by simp [groupby]
  | x :: xs, hs => by
    have hs2 : List.Sorted (fun p q => key p ≤ key q) xs := hs.of_cons
    have hx : ∀ y ∈ xs, key x ≤ key y := List.rel_of_sorted_cons hs
    obtain ⟨hnd, hmem, hgrp⟩ := groupby_sorted key xs hs2
    cases hgb : groupby key xs with
    | nil =>
      have hxs : xs = [] := by
        cases xs with
        | nil => rfl
        | cons a l => exact absurd hgb (groupby_ne_nil key a l)
      subst hxs
      have hone : groupby key [x] = [(key x, [x])] := rfl
      refine ⟨by simp [hone], by simp [hone], ?_⟩
      intro k gr hkg
      rw [hone] at hkg
      rcases List.mem_cons.mp hkg with heq | habs
      · rw [Prod.mk.injEq] at heq
        rw [heq.2, List.filter_cons]
        simp [heq.1]
      · exact absurd habs (List.not_mem_nil _)
    | cons p rest0 =>
      obtain ⟨k0, g0⟩ := p
      obtain ⟨z, xs2, rfl⟩ : ∃ z xs2, xs = z :: xs2 := by
        cases xs with
        | nil =>
          rw [show groupby key ([] : List α) = [] from rfl] at hgb
          exact absurd hgb (by simp)
        | cons a l => exact ⟨a, l, rfl⟩
      have hk0 : k0 = key z := groupby_head_key key z xs2 k0 g0 rest0 hgb
      have hgbx : groupby key (x :: z :: xs2) =
          if key x = k0 then (k0, x :: g0) :: rest0
          else (key x, [x]) :: (k0, g0) :: rest0 := by
        unfold groupby
        rw [hgb]
      rw [hgb] at hnd hmem hgrp
      by_cases heq : key x = k0
      · rw [hgbx, if_pos heq]
        have hk0mem : k0 ∈ (z :: xs2).map key := (hmem k0).mp (by simp)
        refine ⟨by simpa using hnd, ?_, ?_⟩
        · intro k
          constructor
          · intro hk
            rw [List.map_cons] at hk
            rw [List.map_cons]
            rcases List.mem_cons.mp hk with rfl | hk2
            · exact List.mem_cons_of_mem _ hk0mem
            · have hk3 : k ∈ List.map Prod.fst ((k0, g0) :: rest0) := by
                rw [List.map_cons]
                exact List.mem_cons_of_mem _ hk2
              exact List.mem_cons_of_mem _ ((hmem k).mp hk3)
          · intro hk
            rw [List.map_cons] at hk
            rw [List.map_cons]
            rcases List.mem_cons.mp hk with rfl | hk2
            · rw [← heq]
              exact List.mem_cons_self _ _
            · have hk3 := (hmem k).mpr hk2
              rw [List.map_cons] at hk3
              exact hk3
        · intro k gr hkg
          rcases List.mem_cons.mp hkg with hhd | htl
          · rw [Prod.mk.injEq] at hhd
            have hxk : decide (key x = k) = true := by
              rw [heq, hhd.1]
              simp
            rw [List.filter_cons, if_pos hxk]
            have hg0 : g0 = (z :: xs2).filter (fun y => decide (key y = k)) := by
              apply hgrp
              rw [hhd.1]
              exact List.mem_cons_self _ _
            rw [hhd.2, ← hg0]
          · have hgr : gr = (z :: xs2).filter (fun y => decide (key y = k)) :=
              hgrp k gr (List.mem_cons_of_mem _ htl)
            have hkmem : k ∈ List.map Prod.fst rest0 := by
              have := List.mem_map_of_mem Prod.fst htl
              simpa using this
            have hk0notin : k0 ∉ List.map Prod.fst rest0 := by
              rw [List.map_cons] at hnd
              exact (List.nodup_cons.mp hnd).1
            have hxk : key x ≠ k := by
              rw [heq]
              intro hcon
              rw [hcon] at hk0notin
              exact hk0notin hkmem
            rw [List.filter_cons, if_neg (by simpa using hxk), hgr]
      · rw [hgbx, if_neg heq]
        have hA : key x ∉ (z :: xs2).map key := by
          intro hcon
          obtain ⟨y, hy, hkey⟩ := List.mem_map.mp hcon
          rcases List.mem_cons.mp hy with rfl | hy2
          · exact heq (hk0 ▸ hkey.symm)
          · have h1 : key x ≤ key z := hx z (List.mem_cons_self z xs2)
            have h2 : key z ≤ key y := List.rel_of_sorted_cons hs2 y hy2
            have h3 : key z = key x := le_antisymm (hkey ▸ h2) h1
            exact heq (hk0 ▸ h3.symm)
        refine ⟨?_, ?_, ?_⟩
        · rw [List.map_cons]
          refine List.nodup_cons.mpr ⟨?_, hnd⟩
          intro hcon
          exact hA ((hmem (key x)).mp hcon)
        · intro k
          rw [List.map_cons, List.map_cons]
          constructor
          · intro hk
            rcases List.mem_cons.mp hk with rfl | hk2
            · exact List.mem_cons_self _ _
            · exact List.mem_cons_of_mem _ ((hmem k).mp hk2)
          · intro hk
            rcases List.mem_cons.mp hk with rfl | hk2
            · exact List.mem_cons_self _ _
            · exact List.mem_cons_of_mem _ ((hmem k).mpr hk2)
        · intro k gr hkg
          rcases List.mem_cons.mp hkg with hhd | htl
          · rw [Prod.mk.injEq] at hhd
            have hxk : decide (key x = k) = true := by
              rw [hhd.1]
              simp
            rw [List.filter_cons, if_pos hxk]
            have hnil : (z :: xs2).filter (fun y => decide (key y = k)) = [] := by
              rw [List.filter_eq_nil_iff]
              intro y hy
              simp only [decide_eq_true_eq]
              intro hcon
              exact hA (List.mem_map.mpr ⟨y, hy, hcon.trans hhd.1⟩)
            rw [hnil, hhd.2]
          · have hgr : gr = (z :: xs2).filter (fun y => decide (key y = k)) :=
              hgrp k gr htl
            have hkmem : k ∈ (z :: xs2).map key := by
              apply (hmem k).mp
              have := List.mem_map_of_mem Prod.fst htl
              simpa using this
            have hxk : key x ≠ k := by
              intro hcon
              rw [hcon] at hA
              exact hA hkmem
            rw [List.filter_cons, if_neg (by simpa using hxk), hgr]

lemma zip_filter_snd {β : Type} [DecidableEq β] (g : String → Option β) (k : β) :
    ∀ (fs : List String) (bs : List β), (∀ p ∈ fs.zip bs, g p.1 = some p.2) →
      fs.length = bs.length →
      ((fs.zip bs).filter (fun p => decide (p.2 = k))).map Prod.fst =
        fs.filter (fun f => decide (g f = some k))
  | [], [], _, _ => rfl
  | [], b :: bs, _, h => by simp at h
  | f :: fs, [], _, h => by simp at h
  | f :: fs, b :: bs, hpt, hlen => by
    have hgf : g f = some b := hpt (f, b) (by
      rw [List.zip_cons_cons]
      exact List.mem_cons_self _ _)
    have hrec := zip_filter_snd g k fs bs
      (fun p hp => hpt p (by
        rw [List.zip_cons_cons]
        exact List.mem_cons_of_mem _ hp))
      (by simpa using hlen)
    rw [List.zip_cons_cons, List.filter_cons, List.filter_cons]
    by_cases hbk : b = k
    · rw [if_pos (by simp [hbk]), if_pos (by simp [hgf, hbk]), List.map_cons, hrec]
    · rw [if_neg (by simp [hbk]), if_neg (by simp [hgf, hbk]), hrec]

/-- C8 (amended): for every NON-EMPTY file list in which each filename
yields a burst id, `group_by_burst` returns one group per distinct burst id,
containing exactly the files bearing that id in their original relative
order; if any filename yields no id, it raises `ValueError` naming an
unparseable filename and returns no grouping.  (The original claim also
covered the empty file list — see the counterexample: there the tuple
unpacking `file_list, burst_ids = zip(*file_burst_tups)` raises instead.) -/
theorem group_by_burst_spec {β : Type} [LinearOrder β]
    (get_burst : String → Option β) (file_list : List String) :
    (file_list ≠ [] → (∀ f ∈ file_list, (get_burst f).isSome) →
      ∃ gs, group_by_burst get_burst file_list = Except.ok gs
        ∧ (gs.map Prod.fst).Nodup
        ∧ (∀ k gr, (k, gr) ∈ gs →
            gr = file_list.filter (fun f => decide (get_burst f = some k)))
        ∧ (∀ k, k ∈ gs.map Prod.fst ↔ some k ∈ file_list.map get_burst))
    ∧ ((∃ f ∈ file_list, get_burst f = none) →
        ∃ f2 ∈ file_list, get_burst f2 = none
          ∧ group_by_burst get_burst file_list =
              Except.error ("ValueError: Could not parse burst id from " ++ f2)) := by
  constructor
  · intro hne hall
    obtain ⟨bs, hbs, hlen, hpt, hmap⟩ := get_burst_list_spec get_burst file_list hall
    obtain ⟨f0, fs0, rfl⟩ := List.exists_cons_of_ne_nil hne
    have hsort0 : List.Sorted (keyLE (Prod.snd : String × β → β))
        (List.insertionSort (keyLE Prod.snd) ((f0 :: fs0).zip bs)) :=
      List.sorted_insertionSort _ _
    have hsort : List.Sorted (fun (p q : String × β) => p.2 ≤ q.2)
        (List.insertionSort (keyLE Prod.snd) ((f0 :: fs0).zip bs)) := hsort0
    obtain ⟨hnd, hmemk, hgrp⟩ := groupby_sorted (Prod.snd : String × β → β) _ hsort
    have hgs : group_by_burst get_burst (f0 :: fs0) =
        Except.ok ((groupby Prod.snd
            (List.insertionSort (keyLE Prod.snd) ((f0 :: fs0).zip bs))).map
          (fun kg => (kg.1, kg.2.map Prod.fst))) := by
      unfold group_by_burst
      rw [hbs]
    refine ⟨_, hgs, ?_, ?_, ?_⟩
    · simpa [List.map_map, Function.comp] using hnd
    · intro k gr hkg
      simp only [List.mem_map] at hkg
      obtain ⟨⟨k1, gr1⟩, hmem1, heq1⟩ := hkg
      rw [Prod.mk.injEq] at heq1
      obtain ⟨hk1, hgr1⟩ := heq1
      have hg : gr1 = (List.insertionSort (keyLE Prod.snd)
          ((f0 :: fs0).zip bs)).filter (fun y => decide (y.2 = k)) :=
        hgrp k gr1 (hk1 ▸ hmem1)
      rw [← hgr1, hg, filter_insertionSort (Prod.snd : String × β → β) k]
      exact zip_filter_snd get_burst k (f0 :: fs0) bs hpt hlen.symm
    · intro k
      have h1 : (((groupby Prod.snd
          (List.insertionSort (keyLE Prod.snd) ((f0 :: fs0).zip bs))).map
            (fun kg => (kg.1, kg.2.map Prod.fst))).map Prod.fst) =
          ((groupby Prod.snd
            (List.insertionSort (keyLE Prod.snd) ((f0 :: fs0).zip bs))).map
              Prod.fst) := by
        rw [List.map_map]
        rfl
      have hsndzip : ((f0 :: fs0).zip bs).map Prod.snd = bs :=
        List.map_snd_zip _ _ (le_of_eq hlen)
      rw [h1, hmemk k,
        List.Perm.mem_iff ((List.perm_insertionSort
          (keyLE (Prod.snd : String × β → β)) ((f0 :: fs0).zip bs)).map Prod.snd),
        hsndzip, hmap]
      simp
  · intro hex
    obtain ⟨f2, hf2, hnone, herr⟩ := get_burst_list_err get_burst file_list hex
    refine ⟨f2, hf2, hnone, ?_⟩
    unfold group_by_burst
    rw [herr]

/-- Counterexample for C8: on the empty file list — where every filename
vacuously contains a burst token, so the claim promises a (trivial)
grouping — `group_by_burst` instead raises the `ValueError` from the tuple
unpacking `file_list, burst_ids = zip(*file_burst_tups)` (`zip(*[])` is
`zip()`, which cannot be unpacked into two variables), and returns no
grouping at all. -/
theorem group_by_burst_empty_counterexample :
    (∀ f ∈ ([] : List String), ((fun _ : String => some (0 : ℕ)) f).isSome)
    ∧ group_by_burst (fun _ : String => some (0 : ℕ)) [] =
        Except.error "ValueError: not enough values to unpack (expected 2, got 0)"
    ∧ ¬∃ gs, group_by_burst (fun _ : String => some (0 : ℕ)) [] =
        Except.ok gs := by
  refine ⟨by simp, rfl, ?_⟩
  rintro ⟨gs, hgs⟩
  rw [show group_by_burst (fun _ : String => some (0 : ℕ)) [] =
      Except.error "ValueError: not enough values to unpack (expected 2, got 0)"
    from rfl] at hgs
  simp at hgs

/-- Witness for C8 (amended), at the specification's example: burst token
`t087_185678_iw1` twice and `t087_185678_iw2` once gives exactly two groups
of sizes 2 and 1 in input order, and a file list containing an unparseable
name raises the grouping `ValueError` naming it. -/
theorem group_by_burst_spec_witness :
    (∃ gs, group_by_burst demo_burst
        ["t087_185678_iw1_a", "t087_185678_iw2_b", "t087_185678_iw1_c"] =
          Except.ok gs
      ∧ (gs.map Prod.fst).Nodup
      ∧ (∀ k gr, (k, gr) ∈ gs →
          gr = ["t087_185678_iw1_a", "t087_185678_iw2_b",
            "t087_185678_iw1_c"].filter (fun f => decide (demo_burst f = some k)))
      ∧ (∀ k, k ∈ gs.map Prod.fst ↔ some k ∈ ["t087_185678_iw1_a",
          "t087_185678_iw2_b", "t087_185678_iw1_c"].map demo_burst))
    ∧ (∃ f2 ∈ ["t087_185678_iw1_a", "nomatch"], demo_burst f2 = none
        ∧ group_by_burst demo_burst ["t087_185678_iw1_a", "nomatch"] =
            Except.error ("ValueError: Could not parse burst id from " ++ f2))
    ∧ group_by_burst demo_burst
        ["t087_185678_iw1_a", "t087_185678_iw2_b", "t087_185678_iw1_c"] =
      Except.ok [(1, ["t087_185678_iw1_a", "t087_185678_iw1_c"]),
        (2, ["t087_185678_iw2_b"])] :=
  ⟨(group_by_burst_spec demo_burst _).1 (by simp) (by decide),
   (group_by_burst_spec demo_burst _).2 ⟨"nomatch", by simp, by decide⟩,
   rfl⟩

end Dolphin
